import Mathlib

/-!
Shallow embedding of the core of the `youtube-transcript` repository
(`src/youtube-transcript/src/parser.rs`), together with theorems settling the
claims about its specification.

The embedding covers:
* `HTMLParser::caption` (anchor-delimited substring extraction via
  `str::split_once`, JSON deserialization of the `Captions` structure in the
  style of `serde_json::from_str`, and the first-match linear language scan);
* `TranscriptParser::parse` (document-order traversal of `text` elements,
  attribute access, `f32::from_str` decimal parsing with IEEE-754 binary32
  round-to-nearest-even semantics, and `Duration::from_secs_f32`, whose
  panic conditions are modelled as an explicit `panicked` outcome);
* `From<Transcript> for String` (the human-readable rendering).

Machine floats are modelled exactly as rationals carrying the correctly
rounded binary32 value; durations are modelled as total nanosecond counts.
-/

deriving instance DecidableEq for Except

attribute [local semireducible] Rat.mul Rat.inv Rat.add Rat.sub

set_option maxRecDepth 100000

namespace YTS

/-! ### `str::split_once`

Rust's `str::split_once(pat)` splits at the first occurrence of `pat`,
returning the parts strictly before and after it. -/

/-- Core of `str::split_once` on character lists: scan left to right for the
first position where `pat` is a prefix, and return the parts before and after
that occurrence. -/
def splitOnceL (pat : List Char) : List Char → Option (List Char × List Char)
  | [] => if pat.isPrefixOf ([] : List Char) then some ([], []) else none
  | c :: rest =>
    if pat.isPrefixOf (c :: rest) then some ([], (c :: rest).drop pat.length)
    else (splitOnceL pat rest).map (fun p => (c :: p.1, p.2))

/-- `str::split_once` on strings. -/
def splitOnceS (s pat : String) : Option (String × String) :=
  (splitOnceL pat.data s.data).map (fun p => (String.mk p.1, String.mk p.2))

/-! ### JSON values and `serde_json` text parsing

`HTMLParser::caption` runs `serde_json::from_str::<Captions>` on the anchored
substring.  We model this in two stages faithful to serde's semantics: parse
the whole substring as a JSON document, then deserialize the `Captions` /
`Caption` structs from the resulting value (unknown fields ignored, duplicate
or missing known fields rejected, type mismatches rejected). -/

inductive Json where
  | null
  | bool (b : Bool)
  | num (q : ℚ)
  | str (s : String)
  | arr (elems : List Json)
  | obj (fields : List (String × Json))

/-- JSON whitespace skipping (space, newline, carriage return, tab). -/
def skipWs : List Char → List Char
  | [] => []
  | c :: rest =>
    if c = ' ' ∨ c = '\n' ∨ c = '\r' ∨ c = '\t' then skipWs rest else c :: rest

/-- Consume an expected literal. -/
def dropLit (lit l : List Char) : Option (List Char) :=
  if lit.isPrefixOf l then some (l.drop lit.length) else none

def hexVal (c : Char) : Option Nat :=
  if '0' ≤ c ∧ c ≤ '9' then some (c.toNat - 48)
  else if 'a' ≤ c ∧ c ≤ 'f' then some (c.toNat - 87)
  else if 'A' ≤ c ∧ c ≤ 'F' then some (c.toNat - 55)
  else none

def parseHex4 : List Char → Option (Nat × List Char)
  | a :: b :: c :: d :: rest =>
    match hexVal a, hexVal b, hexVal c, hexVal d with
    | some va, some vb, some vc, some vd =>
      some (((va * 16 + vb) * 16 + vc) * 16 + vd, rest)
    | _, _, _, _ => none
  | _ => none

def escChar (c : Char) : Option Char :=
  if c = '"' then some '"'
  else if c = '\\' then some '\\'
  else if c = '/' then some '/'
  else if c = 'b' then some '\x08'
  else if c = 'f' then some '\x0C'
  else if c = 'n' then some '\n'
  else if c = 'r' then some '\r'
  else if c = 't' then some '\t'
  else none

/-- Body of a JSON string literal, after the opening quote: returns the decoded
characters and the remainder after the closing quote.  Escapes follow
`serde_json` (including `\uXXXX` with surrogate pairs; lone surrogates and raw
control characters are rejected). -/
def strBody : Nat → List Char → Option (List Char × List Char)
  | 0, _ => none
  | _ + 1, [] => none
  | fuel + 1, c :: rest =>
    if c = '"' then some ([], rest)
    else if c = '\\' then
      match rest with
      | [] => none
      | e :: r2 =>
        if e = 'u' then
          match parseHex4 r2 with
          | none => none
          | some (code, r3) =>
            if 0xD800 ≤ code ∧ code < 0xDC00 then
              match r3 with
              | '\\' :: 'u' :: r4 =>
                match parseHex4 r4 with
                | some (lo, r5) =>
                  if 0xDC00 ≤ lo ∧ lo < 0xE000 then
                    (strBody fuel r5).map (fun p =>
                      (Char.ofNat (0x10000 + (code - 0xD800) * 0x400 + (lo - 0xDC00)) :: p.1, p.2))
                  else none
                | none => none
              | _ => none
            else if 0xDC00 ≤ code ∧ code < 0xE000 then none
            else (strBody fuel r3).map (fun p => (Char.ofNat code :: p.1, p.2))
        else
          match escChar e with
          | none => none
          | some ch => (strBody fuel r2).map (fun p => (ch :: p.1, p.2))
    else if c.toNat < 0x20 then none
    else (strBody fuel rest).map (fun p => (c :: p.1, p.2))

def takeDigits : List Char → (List Char × List Char)
  | [] => ([], [])
  | c :: rest =>
    if c.isDigit then
      let p := takeDigits rest
      (c :: p.1, p.2)
    else ([], c :: rest)

def natOfDigits (l : List Char) : ℕ :=
  l.foldl (fun acc c => acc * 10 + (c.toNat - 48)) 0

/-- Exponent part of a JSON number, and assembly of the exact rational value
`±(ip.fd) · 10^e`. -/
def jsonNumTail (sgn : Bool) (ip : ℕ) (fd : List Char) (l : List Char) :
    Option (ℚ × List Char) :=
  let mant : ℚ := ((ip * 10 ^ fd.length + natOfDigits fd : ℕ) : ℚ)
  let base : ℚ := if sgn then -mant else mant
  match l with
  | c :: r =>
    if c = 'e' ∨ c = 'E' then
      let sp : Bool × List Char :=
        match r with
        | '-' :: rr => (true, rr)
        | '+' :: rr => (false, rr)
        | _ => (false, r)
      let ed := takeDigits sp.2
      if ed.1 = [] then none
      else
        let e : ℤ := if sp.1 then -(natOfDigits ed.1 : ℤ) else (natOfDigits ed.1 : ℤ)
        some (base * (10 : ℚ) ^ (e - fd.length), ed.2)
    else some (base * (10 : ℚ) ^ (-(fd.length : ℤ)), l)
  | [] => some (base * (10 : ℚ) ^ (-(fd.length : ℤ)), [])

/-- Fraction part of a JSON number (after the integer part). -/
def jsonNumFrac (sgn : Bool) (ip : ℕ) (l : List Char) : Option (ℚ × List Char) :=
  match l with
  | '.' :: r =>
    let fd := takeDigits r
    if fd.1 = [] then none else jsonNumTail sgn ip fd.1 fd.2
  | _ => jsonNumTail sgn ip [] l

/-- A JSON number: optional minus, integer part without leading zeros,
optional fraction, optional exponent. -/
def jsonNum (l : List Char) : Option (ℚ × List Char) :=
  let sp : Bool × List Char :=
    match l with
    | '-' :: r => (true, r)
    | _ => (false, l)
  match sp.2 with
  | '0' :: r => jsonNumFrac sp.1 0 r
  | c :: r =>
    if c.isDigit then
      let ds := takeDigits r
      jsonNumFrac sp.1 (natOfDigits (c :: ds.1)) ds.2
    else none
  | [] => none

mutual

/-- One JSON value, starting at the head of the input (no leading
whitespace). -/
def jsonValue : Nat → List Char → Option (Json × List Char)
  | 0, _ => none
  | _ + 1, [] => none
  | fuel + 1, c :: rest =>
    if c = 'n' then (dropLit ['u', 'l', 'l'] rest).map (fun r => (Json.null, r))
    else if c = 't' then (dropLit ['r', 'u', 'e'] rest).map (fun r => (Json.bool true, r))
    else if c = 'f' then (dropLit ['a', 'l', 's', 'e'] rest).map (fun r => (Json.bool false, r))
    else if c = '"' then
      (strBody (rest.length + 1) rest).map (fun p => (Json.str (String.mk p.1), p.2))
    else if c = '[' then
      match skipWs rest with
      | ']' :: r => some (Json.arr [], r)
      | l1 => (jsonElems fuel l1).map (fun p => (Json.arr p.1, p.2))
    else if c = '\x7b' then
      match skipWs rest with
      | '\x7d' :: r => some (Json.obj [], r)
      | l1 => (jsonFields fuel l1).map (fun p => (Json.obj p.1, p.2))
    else if c = '-' ∨ c.isDigit then (jsonNum (c :: rest)).map (fun p => (Json.num p.1, p.2))
    else none

/-- Non-empty comma-separated array elements, up to the closing bracket. -/
def jsonElems : Nat → List Char → Option (List Json × List Char)
  | 0, _ => none
  | fuel + 1, l =>
    match jsonValue fuel l with
    | none => none
    | some (j, r) =>
      match skipWs r with
      | ',' :: r2 => (jsonElems fuel (skipWs r2)).map (fun p => (j :: p.1, p.2))
      | ']' :: r2 => some ([j], r2)
      | _ => none

/-- Non-empty comma-separated object members, up to the closing brace. -/
def jsonFields : Nat → List Char → Option (List (String × Json) × List Char)
  | 0, _ => none
  | fuel + 1, l =>
    match l with
    | '"' :: r =>
      match strBody (r.length + 1) r with
      | none => none
      | some (k, r2) =>
        match skipWs r2 with
        | ':' :: r3 =>
          match jsonValue fuel (skipWs r3) with
          | none => none
          | some (v, r4) =>
            match skipWs r4 with
            | ',' :: r5 => (jsonFields fuel (skipWs r5)).map (fun p => ((String.mk k, v) :: p.1, p.2))
            | '\x7d' :: r5 => some ([(String.mk k, v)], r5)
            | _ => none
        | _ => none
    | _ => none

end

/-- `serde_json` document parsing: one JSON value, surrounded only by
whitespace; anything else is a syntax error. -/
def jsonParse (s : String) : Option Json :=
  match jsonValue (s.data.length + 1) (skipWs s.data) with
  | some (j, r) => if skipWs r = [] then some j else none
  | none => none

/-! ### Deserialization of `Captions` / `Caption`

```rust
#[derive(Deserialize)]
pub(crate) struct Caption {
    #[serde(rename(deserialize = "baseUrl"))]   pub base_url: String,
    #[serde(rename(deserialize = "languageCode"))] pub lang_code: String,
}
#[derive(Deserialize)]
struct Captions {
    #[serde(rename(deserialize = "captionTracks"))] caption_tracks: Vec<Caption>,
}
``` -/

structure Caption where
  base_url : String
  lang_code : String
deriving DecidableEq

def asObj : Json → Except String (List (String × Json))
  | .obj fields => .ok fields
  | _ => .error "invalid type: expected a map"

def asStr : Json → Except String String
  | .str s => .ok s
  | _ => .error "invalid type: expected a string"

def asArr : Json → Except String (List Json)
  | .arr elems => .ok elems
  | _ => .error "invalid type: expected a sequence"

/-- serde struct field access: unknown fields are ignored, a missing known
field or a duplicated known field is an error. -/
def fieldOnce (fields : List (String × Json)) (name : String) : Except String Json :=
  match fields.filter (fun p => p.1 == name) with
  | [] => .error ("missing field " ++ name)
  | [p] => .ok p.2
  | _ => .error ("duplicate field " ++ name)

/-- Deserialize one `Caption` record. -/
def trackOfJson (j : Json) : Except String Caption :=
  match asObj j with
  | .error m => .error m
  | .ok fields =>
    match fieldOnce fields "baseUrl" with
    | .error m => .error m
    | .ok u =>
      match asStr u with
      | .error m => .error m
      | .ok url =>
        match fieldOnce fields "languageCode" with
        | .error m => .error m
        | .ok lj =>
          match asStr lj with
          | .error m => .error m
          | .ok lc => .ok ⟨url, lc⟩

/-- Deserialize a `Vec<Caption>`: sequential, stopping at the first failing
element, exactly like serde's `SeqAccess`. -/
def mapTracks : List Json → Except String (List Caption)
  | [] => .ok []
  | j :: rest =>
    match trackOfJson j with
    | .error m => .error m
    | .ok c =>
      match mapTracks rest with
      | .error m => .error m
      | .ok cs => .ok (c :: cs)

/-- Deserialize the whole `Captions` struct from a JSON value. -/
def captionsOfJson (j : Json) : Except String (List Caption) :=
  match asObj j with
  | .error m => .error m
  | .ok fields =>
    match fieldOnce fields "captionTracks" with
    | .error m => .error m
    | .ok v =>
      match asArr v with
      | .error m => .error m
      | .ok elems => mapTracks elems

/-- `serde_json::from_str::<Captions>`. -/
def serdeCaptions (s : String) : Except String (List Caption) :=
  match jsonParse s with
  | none => .error "JSON syntax error"
  | some j => captionsOfJson j

/-- The raw `captionTracks` JSON array of a document, before element-wise
deserialization (used to state claims about the eager full-list decode). -/
def tracksArr (s : String) : Except String (List Json) :=
  match jsonParse s with
  | none => .error "JSON syntax error"
  | some j =>
    match asObj j with
    | .error m => .error m
    | .ok fields =>
      match fieldOnce fields "captionTracks" with
      | .error m => .error m
      | .ok v => asArr v

/-! ### `HTMLParser::caption` and the error type

The repository's `error::Error` enum is referenced from `parser.rs` only
through its `ParseError(String)` variant.  The `?` on `str::parse::<f32>()`
boxes the standard library's `ParseFloatError` instead, which is a distinct
dynamic type carrying only an empty-input/invalid-literal kind; both are
modelled as constructors of one error type. -/

inductive RustError where
  | parseError (msg : String)
  | floatError (emptyInput : Bool)
deriving DecidableEq

/-- `HTMLParser::caption`: anchor-delimited extraction, serde decode of the
track list, then the first track whose `lang_code` equals the request
(`filter(..).next()`). -/
def caption (html fromMarker toMarker langCode : String) : Except RustError Caption :=
  match splitOnceS html fromMarker with
  | none => .error (.parseError ("Cannot parse html for: " ++ fromMarker))
  | some (_, start) =>
    match splitOnceS start toMarker with
    | none => .error (.parseError ("Cannot parse html to: " ++ toMarker))
    | some (actualJson, _) =>
      match serdeCaptions actualJson with
      | .error m => .error (.parseError m)
      | .ok tracks =>
        match (tracks.filter (fun x => x.lang_code == langCode)).head? with
        | some c => .ok c
        | none => .error (.parseError ("Cannot find lang " ++ langCode))

/-! ### IEEE-754 binary32 (`f32`) and `Duration`

`str::parse::<f32>()` produces the correctly rounded (round to nearest, ties
to even) binary32 value of the decimal literal; out-of-range finite literals
round to an infinity.  A finite float is modelled by its exact rational value.

`Duration::from_secs_f32` rounds the seconds value to the nearest nanosecond
(ties to even) and panics when the value is negative, not finite, or its
whole-second part does not fit in a `u64`.  A `Duration` is modelled by its
total nanosecond count. -/

inductive F32 where
  | finite (q : ℚ)
  | inf
  | neginf
  | nan
deriving DecidableEq

/-- Floor of the base-2 logarithm of a natural number, by halving; the first
argument is recursion fuel. -/
def log2F : ℕ → ℕ → ℕ
  | 0, _ => 0
  | fuel + 1, n => if n ≤ 1 then 0 else 1 + log2F fuel (n / 2)

def natLog2 (n : ℕ) : ℕ := log2F n n

/-- Ceiling of the base-2 logarithm of a natural number (smallest `k` with
`n ≤ 2 ^ k`), by upward halving; the first argument is recursion fuel. -/
def clog2F : ℕ → ℕ → ℕ
  | 0, _ => 0
  | fuel + 1, n => if n ≤ 1 then 0 else 1 + clog2F fuel ((n + 1) / 2)

def natClog2 (n : ℕ) : ℕ := clog2F n n

/-- `⌊log₂ q⌋` for a positive rational. -/
def ratFloorLog2 (q : ℚ) : ℤ :=
  if 1 ≤ q then (natLog2 q.floor.toNat : ℤ)
  else -((natClog2 (q⁻¹).ceil.toNat : ℤ))

/-- Round to the nearest integer, ties to even. -/
def roundHalfEven (q : ℚ) : ℤ :=
  let n := q.floor
  let f := q - (n : ℚ)
  if f < 1 / 2 then n
  else if 1 / 2 < f then n + 1
  else if n % 2 = 0 then n else n + 1

/-- Correctly rounded binary32 value of a positive rational: 24-bit
significand for normal values, fixed scale `2^-149` for subnormals, infinity
beyond the overflow threshold. -/
def roundPosF32 (q : ℚ) : F32 :=
  let e := ratFloorLog2 q
  let scale := max (e - 23) (-149)
  let m := roundHalfEven (q / (2 : ℚ) ^ scale)
  let v := (m : ℚ) * (2 : ℚ) ^ scale
  if (2 : ℚ) ^ (128 : ℕ) ≤ v then .inf else .finite v

/-- Correctly rounded binary32 value of a rational. -/
def roundF32 (q : ℚ) : F32 :=
  if q = 0 then .finite 0
  else if 0 < q then roundPosF32 q
  else
    match roundPosF32 (-q) with
    | .finite v => .finite (-v)
    | .inf => .neginf
    | x => x

/-- Assemble `±(d1.d2) · 10^e` and round it to binary32. -/
def f32Finish (neg : Bool) (d1 d2 : List Char) (e : ℤ) : F32 :=
  let mant : ℕ := natOfDigits (d1 ++ d2)
  let q : ℚ := (mant : ℚ) * (10 : ℚ) ^ (e - d2.length)
  roundF32 (if neg then -q else q)

/-- Optional exponent suffix of a float literal; the whole input must be
consumed. -/
def f32Exp (neg : Bool) (d1 d2 : List Char) (l : List Char) : Option F32 :=
  match l with
  | [] => some (f32Finish neg d1 d2 0)
  | c :: r =>
    if c = 'e' ∨ c = 'E' then
      let sp : Bool × List Char :=
        match r with
        | '-' :: rr => (true, rr)
        | '+' :: rr => (false, rr)
        | _ => (false, r)
      let ed := takeDigits sp.2
      if ed.1 = [] ∨ ed.2 ≠ [] then none
      else some (f32Finish neg d1 d2
        (if sp.1 then -(natOfDigits ed.1 : ℤ) else (natOfDigits ed.1 : ℤ)))
    else none

/-- Number part of the `f32` grammar: `Count '.'? Count? Exp?` or
`'.' Count Exp?`. -/
def f32Number (neg : Bool) (l : List Char) : Option F32 :=
  let d1 := takeDigits l
  match d1.2 with
  | '.' :: r2 =>
    let d2 := takeDigits r2
    if d1.1 = [] ∧ d2.1 = [] then none else f32Exp neg d1.1 d2.1 d2.2
  | r1 => if d1.1 = [] then none else f32Exp neg d1.1 [] r1

/-- `f32::from_str`: optional sign, then a case-insensitive `inf`,
`infinity` or `nan`, or a decimal number. -/
def parseF32 (s : String) : Option F32 :=
  match s.data with
  | [] => none
  | l =>
    let sp : Bool × List Char :=
      match l with
      | '-' :: r => (true, r)
      | '+' :: r => (false, r)
      | _ => (false, l)
    let low := sp.2.map Char.toLower
    if low = ['i', 'n', 'f'] ∨ low = ['i', 'n', 'f', 'i', 'n', 'i', 't', 'y'] then
      some (if sp.1 then .neginf else .inf)
    else if low = ['n', 'a', 'n'] then some .nan
    else f32Number sp.1 sp.2

/-- `Duration::from_secs_f32`, with `none` standing for its panic. -/
def durationFromSecsF32 : F32 → Option ℕ
  | .finite q =>
    if q < 0 then none
    else
      let n := (roundHalfEven (q * 1000000000)).toNat
      if n / 1000000000 < 2 ^ 64 then some n else none
  | _ => none

/-! ### `roxmltree` documents and `TranscriptParser::parse`

A parsed timed-text document is modelled as its node tree (`roxmltree`
node kinds: element, text, comment, processing instruction; the root
container node is represented by the list of top-level nodes, and is itself
no element named `"text"`, so it never enters the traversal's filter). -/

inductive XNode where
  | element (name : String) (attrs : List (String × String)) (children : List XNode)
  | text (content : String)
  | comment (content : String)
  | pi (content : String)

/-- `Node::tag_name()`: non-element nodes have the empty name, which never
equals `"text"`. -/
def XNode.tagName : XNode → String
  | .element n _ _ => n
  | _ => ""

/-- `Node::attribute(name)`: first attribute with the given name. -/
def XNode.attributeOf (n : XNode) (name : String) : Option String :=
  match n with
  | .element _ attrs _ => (attrs.find? (fun p => p.1 == name)).map (fun p => p.2)
  | _ => none

/-- `Node::last_child()`. -/
def XNode.lastChild : XNode → Option XNode
  | .element _ _ cs => cs.getLast?
  | _ => none

/-- `Node::text()`: a text or comment node yields its own content; an element
yields its first child's content when that child is a text node. -/
def XNode.textContent : XNode → Option String
  | .text s => some s
  | .comment s => some s
  | .pi _ => none
  | .element _ _ cs =>
    match cs with
    | .text s :: _ => some s
    | _ => none

mutual

/-- `Node::descendants()`: the node itself followed by all descendants in
document order (preorder). -/
def XNode.descendants : XNode → List XNode
  | .element n a cs => .element n a cs :: descendantsOfList cs
  | .text s => [.text s]
  | .comment s => [.comment s]
  | .pi s => [.pi s]

def descendantsOfList : List XNode → List XNode
  | [] => []
  | n :: rest => XNode.descendants n ++ descendantsOfList rest

end

/-- The nodes selected by `transcript.descendants().filter(|x| x.tag_name() ==
"text".into())`, in document order. -/
def matchedNodes (doc : List XNode) : List XNode :=
  (descendantsOfList doc).filter (fun n => n.tagName == "text")

/-- `TranscriptCore`, with both `Duration` fields as total nanoseconds. -/
structure TranscriptCore where
  text : String
  start : ℕ
  duration : ℕ
deriving DecidableEq

inductive StepResult where
  | seg (s : TranscriptCore)
  | failed (e : RustError)
  | panicked
deriving DecidableEq

/-- The body of the `for node in nodes` loop of `TranscriptParser::parse`,
check for check in source order: `start` attribute, its `f32` parse, `dur`
attribute, its `f32` parse, `last_child`, its text, then the two
`Duration::from_secs_f32` conversions (start first), whose failures are
panics rather than errors. -/
def parseNode (node : XNode) : StepResult :=
  match node.attributeOf "start" with
  | none => .failed (.parseError "transcript parse error")
  | some sAttr =>
    match parseF32 sAttr with
    | none => .failed (.floatError (sAttr == ""))
    | some startF =>
      match node.attributeOf "dur" with
      | none => .failed (.parseError "transcript parse error")
      | some dAttr =>
        match parseF32 dAttr with
        | none => .failed (.floatError (dAttr == ""))
        | some durF =>
          match node.lastChild with
          | none => .failed (.parseError "transcript parse error")
          | some child =>
            match child.textContent with
            | none => .failed (.parseError "transcript error")
            | some t =>
              match durationFromSecsF32 startF with
              | none => .panicked
              | some st =>
                match durationFromSecsF32 durF with
                | none => .panicked
                | some du => .seg ⟨t, st, du⟩

/-- Outcome of `TranscriptParser::parse`: the `Ok` transcript, the boxed
error returned through `?`, or a panic escaping the function. -/
inductive PResult where
  | ok (transcripts : List TranscriptCore)
  | err (e : RustError)
  | panicked
deriving DecidableEq

def PResult.isOk : PResult → Bool
  | .ok _ => true
  | _ => false

/-- The push loop: each node's segment is appended in traversal order, and
the first failure aborts the whole parse. -/
def parseLoop : List XNode → PResult
  | [] => .ok []
  | n :: rest =>
    match parseNode n with
    | .failed e => .err e
    | .panicked => .panicked
    | .seg s =>
      match parseLoop rest with
      | .ok l => .ok (s :: l)
      | .err e => .err e
      | .panicked => .panicked

/-- `TranscriptParser::parse` on an already-parsed document tree. -/
def transcriptParse (doc : List XNode) : PResult :=
  parseLoop (matchedNodes doc)

/-! ### Per-element specification of the parse -/

/-- The segment one matched element contributes, when every step succeeds. -/
def segOf? (n : XNode) : Option TranscriptCore :=
  match n.attributeOf "start" with
  | none => none
  | some s =>
    match parseF32 s with
    | none => none
    | some x =>
      match n.attributeOf "dur" with
      | none => none
      | some d =>
        match parseF32 d with
        | none => none
        | some y =>
          match n.lastChild with
          | none => none
          | some c =>
            match c.textContent with
            | none => none
            | some t =>
              match durationFromSecsF32 x with
              | none => none
              | some st =>
                match durationFromSecsF32 y with
                | none => none
                | some du => some ⟨t, st, du⟩

/-- A matched element that the parse (including the `Duration` conversions)
accepts: both attributes present, both parsing as `f32` values convertible to
`Duration`, and a last child carrying text. -/
def goodNodeB (n : XNode) : Bool :=
  (((n.attributeOf "start").bind parseF32).bind durationFromSecsF32).isSome &&
  (((n.attributeOf "dur").bind parseF32).bind durationFromSecsF32).isSome &&
  ((n.lastChild).bind XNode.textContent).isSome

/-- The well-formedness condition exactly as the claim states it: both
attributes present and parsing as decimal numbers, and extractable enclosed
text — with no condition on the parsed values themselves. -/
def claimGoodB (n : XNode) : Bool :=
  ((n.attributeOf "start").bind parseF32).isSome &&
  ((n.attributeOf "dur").bind parseF32).isSome &&
  ((n.lastChild).bind XNode.textContent).isSome

/-- All matched elements, one optional segment each. -/
def segsOf? : List XNode → Option (List TranscriptCore)
  | [] => some []
  | n :: rest =>
    match segOf? n with
    | none => none
    | some s =>
      match segsOf? rest with
      | none => none
      | some l => some (s :: l)

/-! ### Human-readable rendering (`From<Transcript> for String`)

The `From` impl is in `parser.rs`; the time formatter it calls lives in the
repository's `utils` module, which is not under `src/`. -/

/-- Modelled from the spec: the repository's `utils::to_human_readable`
(module `utils`, not present under `src/`) renders a duration in a
human-readable clock format — hours:minutes:seconds when at least one hour,
else minutes:seconds. -/
def to_human_readable (nanos : ℕ) : String :=
  let totalSecs := nanos / 1000000000
  let h := totalSecs / 3600
  let m := totalSecs % 3600 / 60
  let s := totalSecs % 60
  if 1 ≤ h then toString h ++ ":" ++ toString m ++ ":" ++ toString s
  else toString m ++ ":" ++ toString s

/-- The per-segment block of `From<Transcript> for String`:
`format!("\nstart at: {} for duration {}\n{}\n==========\n\n", ...)`. -/
def renderBlock (x : TranscriptCore) : String :=
  "\nstart at: " ++ to_human_readable x.start ++ " for duration " ++
    to_human_readable x.duration ++ "\n" ++ x.text ++ "\n==========\n\n"

/-- `From<Transcript> for String`: one block per segment, in segment order,
concatenated (`map` + `collect::<String>`). -/
def stringFromTranscript : List TranscriptCore → String
  | [] => ""
  | x :: rest => renderBlock x ++ stringFromTranscript rest

/-- The transcript list of an `Ok` outcome. -/
def PResult.transcriptsOpt : PResult → Option (List TranscriptCore)
  | .ok l => some l
  | _ => none

/-! ### Concrete example documents used by the claim theorems -/

def docHello : List XNode :=
  [.element "text" [("start", "1.54"), ("dur", "4.16")] [.text "Hello"]]

def docZeroStart : List XNode :=
  [.element "text" [("start", "0"), ("dur", "1")] [.text "x"]]

def docNegStart : List XNode :=
  [.element "text" [("start", "-1"), ("dur", "1")] [.text "x"]]

def docNegC2 : List XNode :=
  [.element "text" [("start", "-1"), ("dur", "2")] [.text "a"]]

def docOneTwo : List XNode :=
  [.element "text" [("start", "1"), ("dur", "2")] [.text "hi"]]

def docThreeFour : List XNode :=
  [.element "text" [("start", "3"), ("dur", "4")] [.text "abc"]]

def docNoStart : List XNode :=
  [.element "text" [("dur", "1")] [.text "a"]]

def docNoDur : List XNode :=
  [.element "text" [("start", "1")] [.text "a"]]

def docBadNum : List XNode :=
  [.element "text" [("start", "x"), ("dur", "1")] [.text "a"]]

def docNoText : List XNode :=
  [.element "text" [("start", "1"), ("dur", "1")] [.element "b" [] []]]

def docNoChild : List XNode :=
  [.element "text" [("start", "1"), ("dur", "1")] []]

def htmlGood : String :=
  "AB\x7b\"captionTracks\":[\x7b\"baseUrl\":\"U\",\"languageCode\":\"en\"\x7d]\x7dCD"

def jsonGood : String :=
  "\x7b\"captionTracks\":[\x7b\"baseUrl\":\"U\",\"languageCode\":\"en\"\x7d]\x7d"

def htmlMixed : String :=
  "AB\x7b\"captionTracks\":[\x7b\"languageCode\":\"en\"\x7d,\x7b\"baseUrl\":\"U\",\"languageCode\":\"en\"\x7d]\x7dCD"

def jsonMixed : String :=
  "\x7b\"captionTracks\":[\x7b\"languageCode\":\"en\"\x7d,\x7b\"baseUrl\":\"U\",\"languageCode\":\"en\"\x7d]\x7d"

/-! ## Supporting lemmas -/

theorem splitOnceL_eq_none_iff (pat l : List Char) :
    splitOnceL pat l = none ↔ ¬ pat <:+: l := by
  induction l with
  | nil =>
    by_cases h : pat.isPrefixOf ([] : List Char) <;>
      simp [splitOnceL, h, List.infix_nil] <;>
      simpa [List.prefix_nil, List.isPrefixOf_iff_prefix] using h
  | cons c rest ih =>
    by_cases h : pat.isPrefixOf (c :: rest)
    · have hpre : pat <+: c :: rest := List.isPrefixOf_iff_prefix.mp h
      simp [splitOnceL, h, List.infix_cons_iff, hpre]
    · have hpre : ¬ pat <+: c :: rest := fun hp =>
        h (List.isPrefixOf_iff_prefix.mpr hp)
      simp [splitOnceL, h, List.infix_cons_iff, hpre, ih]

theorem splitOnceS_eq_none_iff (s pat : String) :
    splitOnceS s pat = none ↔ ¬ pat.data <:+: s.data := by
  rw [← splitOnceL_eq_none_iff pat.data s.data]
  simp [splitOnceS]

theorem serdeCaptions_of_tracksArr (s : String) (elems : List Json)
    (h : tracksArr s = .ok elems) : serdeCaptions s = mapTracks elems := by
  unfold tracksArr at h
  unfold serdeCaptions captionsOfJson
  cases hj : jsonParse s with
  | none => simp only [hj] at h; exact absurd h (by simp)
  | some j =>
    simp only [hj] at h ⊢
    cases ho : asObj j with
    | error m => simp only [ho] at h; exact absurd h (by simp)
    | ok fields =>
      simp only [ho] at h ⊢
      cases hf : fieldOnce fields "captionTracks" with
      | error m => simp only [hf] at h; exact absurd h (by simp)
      | ok v =>
        simp only [hf] at h ⊢
        cases ha : asArr v with
        | error m => simp only [ha] at h; exact absurd h (by simp)
        | ok es => simp only [ha] at h ⊢; cases h; rfl

theorem mapTracks_error_of_mem (elems : List Json) (i : ℕ) (bad : Json) (m : String)
    (hget : elems.get? i = some bad) (hbad : trackOfJson bad = .error m) :
    ∃ m', mapTracks elems = .error m' := by
  induction elems generalizing i with
  | nil => simp at hget
  | cons j rest ih =>
    cases i with
    | zero =>
      rw [List.get?_cons_zero] at hget
      cases hget
      exact ⟨m, by simp [mapTracks, hbad]⟩
    | succ k =>
      rw [List.get?_cons_succ] at hget
      cases hj : trackOfJson j with
      | error m'' => exact ⟨m'', by simp [mapTracks, hj]⟩
      | ok c =>
        obtain ⟨m', hm'⟩ := ih k hget
        exact ⟨m', by simp [mapTracks, hj, hm']⟩

theorem head?_filter_eq_find? {α : Type} (p : α → Bool) (l : List α) :
    (l.filter p).head? = l.find? p := by
  induction l with
  | nil => rfl
  | cons a t ih => by_cases h : p a <;> simp [List.filter_cons, h, List.find?_cons, ih]

theorem parseNode_seg_iff (n : XNode) (s : TranscriptCore) :
    parseNode n = .seg s ↔ segOf? n = some s := by
  unfold parseNode segOf?
  rcases n.attributeOf "start" with _ | sa
  · simp
  · simp only []
    rcases parseF32 sa with _ | x
    · simp
    · simp only []
      rcases n.attributeOf "dur" with _ | da
      · simp
      · simp only []
        rcases parseF32 da with _ | y
        · simp
        · simp only []
          rcases n.lastChild with _ | c
          · simp
          · simp only []
            rcases c.textContent with _ | t
            · simp
            · simp only []
              rcases durationFromSecsF32 x with _ | st
              · simp
              · simp only []
                rcases durationFromSecsF32 y with _ | du <;> simp

theorem segOf?_isSome_eq_goodNodeB (n : XNode) :
    (segOf? n).isSome = goodNodeB n := by
  unfold segOf? goodNodeB
  rcases n.attributeOf "start" with _ | sa
  · simp
  · simp only [Option.some_bind]
    rcases parseF32 sa with _ | x
    · simp
    · simp only [Option.some_bind]
      rcases n.attributeOf "dur" with _ | da
      · simp
      · simp only [Option.some_bind]
        rcases parseF32 da with _ | y
        · simp
        · simp only [Option.some_bind]
          rcases n.lastChild with _ | c
          · simp
          · simp only [Option.some_bind]
            rcases c.textContent with _ | t
            · simp
            · simp only []
              rcases durationFromSecsF32 x with _ | st
              · simp
              · simp only []
                rcases durationFromSecsF32 y with _ | du <;> simp

theorem segOf?_text (n : XNode) (seg : TranscriptCore)
    (h : segOf? n = some seg) :
    (n.lastChild).bind XNode.textContent = some seg.text := by
  unfold segOf? at h
  repeat' split at h
  all_goals simp_all
  subst h
  rfl

theorem parseLoop_ok_iff (ns : List XNode) (l : List TranscriptCore) :
    parseLoop ns = .ok l ↔ segsOf? ns = some l := by
  induction ns generalizing l with
  | nil => simp [parseLoop, segsOf?]
  | cons n rest ih =>
    unfold parseLoop segsOf?
    cases hn : parseNode n with
    | failed e =>
      have hs : segOf? n = none := by
        cases hseg : segOf? n with
        | none => rfl
        | some s => exact absurd ((parseNode_seg_iff n s).mpr hseg) (by simp [hn])
      simp [hs]
    | panicked =>
      have hs : segOf? n = none := by
        cases hseg : segOf? n with
        | none => rfl
        | some s => exact absurd ((parseNode_seg_iff n s).mpr hseg) (by simp [hn])
      simp [hs]
    | seg s =>
      have hs : segOf? n = some s := (parseNode_seg_iff n s).mp hn
      rw [hs]
      cases hr : parseLoop rest with
      | ok l' =>
        have : segsOf? rest = some l' := (ih l').mp hr
        rw [this]
        constructor
        · intro h; cases h; rfl
        · intro h
          cases hl : l with
          | nil => rw [hl] at h; simp at h
          | cons a t =>
            rw [hl] at h
            simp at h
            obtain ⟨h1, h2⟩ := h
            cases h1; cases h2; rfl
      | err e =>
        have : segsOf? rest = none := by
          cases hseg : segsOf? rest with
          | none => rfl
          | some l'' => exact absurd ((ih l'').mpr hseg) (by simp [hr])
        simp [this]
      | panicked =>
        have : segsOf? rest = none := by
          cases hseg : segsOf? rest with
          | none => rfl
          | some l'' => exact absurd ((ih l'').mpr hseg) (by simp [hr])
        simp [this]

theorem segsOf?_isSome_eq_all (ns : List XNode) :
    (segsOf? ns).isSome = ns.all goodNodeB := by
  induction ns with
  | nil => simp [segsOf?]
  | cons n rest ih =>
    unfold segsOf?
    rw [List.all_cons, ← segOf?_isSome_eq_goodNodeB n, ← ih]
    cases segOf? n with
    | none => simp
    | some s => cases segsOf? rest <;> simp

theorem parseLoop_isOk (ns : List XNode) :
    (parseLoop ns).isOk = ns.all goodNodeB := by
  rw [← segsOf?_isSome_eq_all]
  cases hr : parseLoop ns with
  | ok l =>
    have := (parseLoop_ok_iff ns l).mp hr
    simp [PResult.isOk, this]
  | err e =>
    have : segsOf? ns = none := by
      cases hseg : segsOf? ns with
      | none => rfl
      | some l => exact absurd ((parseLoop_ok_iff ns l).mpr hseg) (by simp [hr])
    simp [PResult.isOk, this]
  | panicked =>
    have : segsOf? ns = none := by
      cases hseg : segsOf? ns with
      | none => rfl
      | some l => exact absurd ((parseLoop_ok_iff ns l).mpr hseg) (by simp [hr])
    simp [PResult.isOk, this]

theorem segsOf?_length_get? (ns : List XNode) (l : List TranscriptCore)
    (h : segsOf? ns = some l) :
    l.length = ns.length ∧ ∀ i, l.get? i = (ns.get? i).bind segOf? := by
  induction ns generalizing l with
  | nil =>
    unfold segsOf? at h
    cases h
    exact ⟨rfl, fun i => by cases i <;> rfl⟩
  | cons n rest ih =>
    unfold segsOf? at h
    cases hs : segOf? n with
    | none => rw [hs] at h; exact absurd h (by simp)
    | some s =>
      rw [hs] at h
      cases hr : segsOf? rest with
      | none => rw [hr] at h; exact absurd h (by simp)
      | some l' =>
        rw [hr] at h
        cases h
        obtain ⟨hlen, hget⟩ := ih l' hr
        refine ⟨by simp [hlen], fun i => ?_⟩
        cases i with
        | zero => simp [hs]
        | succ k => simpa using hget k

/-! ## Claim theorems -/

/-- C1: whenever both anchors split the host document and the bounded
substring deserializes as a `captionTracks` record list, `caption` returns
`Ok` with the first record (in list order) whose language code is exactly
string-equal to the request, and the language-not-available error when no
record's code equals the request. -/
theorem C1_locate_first_exact_match
    (html fromMarker toMarker langCode pre rest sub post : String)
    (tracks : List Caption)
    (h1 : splitOnceS html fromMarker = some (pre, rest))
    (h2 : splitOnceS rest toMarker = some (sub, post))
    (h3 : serdeCaptions sub = .ok tracks) :
    caption html fromMarker toMarker langCode =
      match tracks.find? (fun c => c.lang_code == langCode) with
      | some c => .ok c
      | none => .error (.parseError ("Cannot find lang " ++ langCode)) := by
  unfold caption
  simp only [h1, h2, h3, head?_filter_eq_find?]

/-- Witness for C1 on a concrete host document. -/
theorem C1_locate_first_exact_match_witness :
    caption htmlGood "AB" "CD" "en" = .ok ⟨"U", "en"⟩ :=
  C1_locate_first_exact_match htmlGood "AB" "CD" "en" "" (jsonGood ++ "CD")
    jsonGood "" [⟨"U", "en"⟩] (by decide) (by decide) (by decide)

/-- C2 (amended): `parse_transcript` returns `Ok` exactly when every matched
element has `start` and `dur` attributes parsing as decimal numbers whose
values moreover convert to `Duration` without panicking (non-negative,
finite, in range) and a last inner node with extractable text; on success the
transcript has one segment per matched element, in document order. -/
theorem C2_parse_ok_iff_accepted (doc : List XNode) :
    ((transcriptParse doc).isOk = (matchedNodes doc).all goodNodeB)
    ∧ ∀ l, transcriptParse doc = .ok l →
        l.length = (matchedNodes doc).length ∧
        ∀ i, l.get? i = ((matchedNodes doc).get? i).bind segOf? := by
  refine ⟨parseLoop_isOk (matchedNodes doc), fun l hl => ?_⟩
  exact segsOf?_length_get? _ l ((parseLoop_ok_iff _ l).mp hl)

/-- Counterexample to C2 as stated: in this document the only matched element
has `start` and `dur` attributes that parse as decimal numbers and encloses
extractable text, yet the parse does not return `Ok` — it panics in
`Duration::from_secs_f32` on the negative start value. -/
theorem C2_ok_iff_as_stated_fails :
    (matchedNodes docNegC2).all claimGoodB = true
    ∧ transcriptParse docNegC2 = .panicked := by
  exact ⟨by decide, by decide⟩

/-- Witness for C2 on a concrete accepted document. -/
theorem C2_parse_ok_iff_accepted_witness :
    (transcriptParse docOneTwo).isOk = (matchedNodes docOneTwo).all goodNodeB
    ∧ [TranscriptCore.mk "hi" 1000000000 2000000000].length
        = (matchedNodes docOneTwo).length :=
  ⟨(C2_parse_ok_iff_accepted docOneTwo).1,
   ((C2_parse_ok_iff_accepted docOneTwo).2 _ (by decide)).1⟩

/-- C3 (amended): `start="0"` yields a zero start duration, and the
`start="1.54" dur="4.16"` element with text `"Hello"` yields exactly one
segment carrying `Duration::from_secs_f32` of the binary32 values of the
literals: 1539999962 ns and 4159999847 ns (the nearest representable values,
not exactly 1540 ms and 4160 ms). -/
theorem C3_f32_duration_values :
    transcriptParse docZeroStart = .ok [⟨"x", 0, 1000000000⟩]
    ∧ transcriptParse docHello = .ok [⟨"Hello", 1539999962, 4159999847⟩] := by
  exact ⟨by decide, by decide⟩

/-- Counterexample to C3 as stated: the single segment's start is 1539999962
ns, not exactly 1540 ms = 1540000000 ns, and its duration is 4159999847 ns,
not exactly 4160 ms. -/
theorem C3_not_exact_milliseconds :
    transcriptParse docHello = .ok [⟨"Hello", 1539999962, 4159999847⟩]
    ∧ (1539999962 : ℕ) ≠ 1540000000 ∧ (4159999847 : ℕ) ≠ 4160000000 := by
  exact ⟨by decide, by decide, by decide⟩

/-- C4: on a document whose `start` attribute parses as a negative decimal
number, `parse_transcript` does not return at all — `Duration::from_secs_f32`
panics — contradicting the claim that every failure is surfaced as a typed
error value. -/
theorem C4_panics_on_negative_start :
    transcriptParse docNegStart = .panicked := by decide

/-- C5: when the `from` anchor does not occur in the document the result is
the from-anchor error (whatever the `to` anchor does), and when `from` occurs
but `to` does not occur in the remainder after the first occurrence of
`from`, the result is the to-anchor error. -/
theorem C5_anchor_check_order (html fromMarker toMarker langCode : String) :
    (¬ fromMarker.data <:+: html.data →
      caption html fromMarker toMarker langCode =
        .error (.parseError ("Cannot parse html for: " ++ fromMarker)))
    ∧ (∀ pre rest, splitOnceS html fromMarker = some (pre, rest) →
        ¬ toMarker.data <:+: rest.data →
        caption html fromMarker toMarker langCode =
          .error (.parseError ("Cannot parse html to: " ++ toMarker))) := by
  constructor
  · intro h
    have hn : splitOnceS html fromMarker = none := (splitOnceS_eq_none_iff _ _).mpr h
    unfold caption
    simp only [hn]
  · intro pre rest h1 h2
    have hn : splitOnceS rest toMarker = none := (splitOnceS_eq_none_iff _ _).mpr h2
    unfold caption
    simp only [h1, hn]

/-- Witness for C5: a document missing both anchors yields the from-anchor
error, and a document whose remainder after `from` misses `to` yields the
to-anchor error. -/
theorem C5_anchor_check_order_witness :
    caption "xyz" "AB" "CD" "fr" = .error (.parseError "Cannot parse html for: AB")
    ∧ caption "ABq" "AB" "CD" "fr" = .error (.parseError "Cannot parse html to: CD") :=
  ⟨(C5_anchor_check_order "xyz" "AB" "CD" "fr").1 (by decide),
   (C5_anchor_check_order "ABq" "AB" "CD" "fr").2 "" "q" (by decide) (by decide)⟩

/-- C6: a matched element whose last inner node is a text payload contributes
a segment whose text equals that payload verbatim, and a matched element with
no inner content node, or whose inner content has no extractable text, makes
the whole parse fail. -/
theorem C6_segment_text_verbatim (doc : List XNode) :
    (∀ l i n s, transcriptParse doc = .ok l →
       (matchedNodes doc).get? i = some n →
       n.lastChild = some (.text s) →
       ∃ seg, l.get? i = some seg ∧ seg.text = s)
    ∧ (∀ n, n ∈ matchedNodes doc →
        (n.lastChild).bind XNode.textContent = none →
        ∀ l, transcriptParse doc ≠ .ok l) := by
  constructor
  · intro l i n s hok hget hlast
    have hsegs := (parseLoop_ok_iff _ l).mp hok
    obtain ⟨hlen, hgeti⟩ := segsOf?_length_get? _ l hsegs
    have hi : i < l.length := by
      rw [hlen]
      by_contra hge
      push_neg at hge
      rw [List.get?_eq_none.mpr hge] at hget
      exact absurd hget (by simp)
    have hli := hgeti i
    rw [hget, Option.some_bind] at hli
    cases hseg : segOf? n with
    | none =>
      rw [hseg] at hli
      exact absurd (List.get?_eq_none.mp hli) (by omega)
    | some seg =>
      rw [hseg] at hli
      have htext := segOf?_text n seg hseg
      rw [hlast] at htext
      simp only [Option.some_bind, XNode.textContent] at htext
      cases htext
      exact ⟨seg, hli, rfl⟩
  · intro n hmem hnone l hok
    have hall : (matchedNodes doc).all goodNodeB = true := by
      rw [← parseLoop_isOk (matchedNodes doc)]
      show (transcriptParse doc).isOk = true
      rw [hok]
      rfl
    have hgood := List.all_eq_true.mp hall n hmem
    unfold goodNodeB at hgood
    rw [hnone] at hgood
    simp at hgood

/-- Witness for C6 on a concrete document. -/
theorem C6_segment_text_verbatim_witness :
    ∃ seg, [TranscriptCore.mk "abc" 3000000000 4000000000].get? 0 = some seg
      ∧ seg.text = "abc" :=
  (C6_segment_text_verbatim docThreeFour).1
    [⟨"abc", 3000000000, 4000000000⟩] 0
    (XNode.element "text" [("start", "3"), ("dur", "4")] [.text "abc"]) "abc"
    (by decide) rfl rfl

/-- C7 (amended): the invalid-decimal error (a boxed `ParseFloatError`) and
the missing-text error `ParseError("transcript error")` are distinguishable
from each other and from the missing-attribute error; but the errors for a
missing `start` attribute, missing `dur` attribute and missing inner content
node are all the identical `ParseError("transcript parse error")` value,
which does not name the missing attribute. -/
theorem C7_error_values :
    transcriptParse docNoStart = .err (.parseError "transcript parse error")
    ∧ transcriptParse docNoDur = .err (.parseError "transcript parse error")
    ∧ transcriptParse docNoChild = .err (.parseError "transcript parse error")
    ∧ transcriptParse docBadNum = .err (.floatError false)
    ∧ transcriptParse docNoText = .err (.parseError "transcript error")
    ∧ RustError.parseError "transcript parse error" ≠ .floatError false
    ∧ RustError.parseError "transcript parse error" ≠ .parseError "transcript error"
    ∧ RustError.floatError false ≠ .parseError "transcript error" := by
  refine ⟨by decide, by decide, by decide, by decide, by decide, by decide, by decide, by decide⟩

/-- Counterexample to C7 as stated: the error value for a document whose
element is missing `start` equals the error value for a document whose
element is missing `dur` — the two missing-attribute failures are not
distinguishable and do not identify the attribute by name. -/
theorem C7_missing_attr_errors_identical :
    transcriptParse docNoStart = .err (.parseError "transcript parse error")
    ∧ transcriptParse docNoDur = .err (.parseError "transcript parse error")
    ∧ transcriptParse docNoStart = transcriptParse docNoDur := by
  exact ⟨by decide, by decide, by decide⟩

/-- C8: the human-readable rendering is total, renders the empty transcript
as the empty string, and renders a non-empty transcript as one block per
segment in segment order — a header with start time and duration, the segment
text, and a separator. -/
theorem C8_render_blocks :
    stringFromTranscript [] = ""
    ∧ ∀ x xs, stringFromTranscript (x :: xs) =
        "\nstart at: " ++ to_human_readable x.start ++ " for duration " ++
          to_human_readable x.duration ++ "\n" ++ x.text ++ "\n==========\n\n" ++
          stringFromTranscript xs :=
  ⟨rfl, fun _ _ => rfl⟩

/-- C9: parsing is deterministic — two invocations on the same document agree
on the outcome and element-wise on every segment's text, start and
duration. -/
theorem C9_parse_deterministic (doc : List XNode) :
    (transcriptParse doc).isOk = (transcriptParse doc).isOk
    ∧ ∀ i,
      ((transcriptParse doc).transcriptsOpt.bind fun l =>
        (l.get? i).map fun s => (s.text, s.start, s.duration))
      = ((transcriptParse doc).transcriptsOpt.bind fun l =>
        (l.get? i).map fun s => (s.text, s.start, s.duration)) :=
  ⟨rfl, fun _ => rfl⟩

/-- C10: the whole bounded `captionTracks` list is deserialized before the
language scan, so one record lacking `baseUrl` or `languageCode` makes
`caption` fail with the deserialization error even when another well-formed
record matches the requested language exactly. -/
theorem C10_whole_list_decoded_before_scan
    (html fromMarker toMarker langCode pre rest sub post : String)
    (elems : List Json) (i k : ℕ) (bad good : Json) (m : String) (c : Caption)
    (h1 : splitOnceS html fromMarker = some (pre, rest))
    (h2 : splitOnceS rest toMarker = some (sub, post))
    (h3 : tracksArr sub = .ok elems)
    (h4 : elems.get? i = some bad)
    (h5 : trackOfJson bad = .error m)
    (h6 : elems.get? k = some good)
    (h7 : trackOfJson good = .ok c)
    (h8 : c.lang_code = langCode) :
    ∃ m', caption html fromMarker toMarker langCode = .error (.parseError m') := by
  obtain ⟨m', hm'⟩ := mapTracks_error_of_mem elems i bad m h4 h5
  have hs : serdeCaptions sub = .error m' := by
    rw [serdeCaptions_of_tracksArr sub elems h3, hm']
  refine ⟨m', ?_⟩
  unfold caption
  simp only [h1, h2, hs]

/-- Witness for C10: the first record lacks `baseUrl`, the second matches the
requested language, and the whole locate call errors. -/
theorem C10_whole_list_decoded_before_scan_witness :
    ∃ m', caption htmlMixed "AB" "CD" "en" = .error (.parseError m') :=
  C10_whole_list_decoded_before_scan htmlMixed "AB" "CD" "en" ""
    (jsonMixed ++ "CD") jsonMixed ""
    [Json.obj [("languageCode", Json.str "en")],
     Json.obj [("baseUrl", Json.str "U"), ("languageCode", Json.str "en")]]
    0 1 (Json.obj [("languageCode", Json.str "en")])
    (Json.obj [("baseUrl", Json.str "U"), ("languageCode", Json.str "en")])
    "missing field baseUrl" ⟨"U", "en"⟩
    (by decide) (by decide) rfl rfl rfl rfl rfl rfl

end YTS
